import Mathlib

set_option maxHeartbeats 1000000

/-!
Shallow embedding of the `Proxy_server` repository (Python) in Lean 4.

Bytes are modelled as `List Char` (ISO-8859-1 decoding is the identity on
this representation).  Python dictionaries are modelled as association
lists with Python's update semantics (an update of an existing key keeps
its position, a new key is appended).  Socket input is modelled as the
list of chunks successive `recv` calls return; exhaustion of the list
models the peer closing the connection.
-/

/-- Byte strings / text, modelled as lists of characters. -/
abbrev Str := List Char

/-- Python `str.lower()` (ASCII model). -/
def strLower (s : Str) : Str := s.map Char.toLower

/-- Python `str.upper()` (ASCII model). -/
def strUpper (s : Str) : Str := s.map Char.toUpper

/-- Locate the first occurrence of `sep` in a string, returning the text
before it and the text after it.  `none` when `sep` does not occur.
This is the search that backs Python's `partition`, `split` and `in`. -/
def breakAt (sep : Str) : Str → Option (Str × Str)
  | [] => if sep = [] then some ([], []) else none
  | c :: rest =>
    if sep.isPrefixOf (c :: rest) then some ([], (c :: rest).drop sep.length)
    else match breakAt sep rest with
      | some (a, b) => some (c :: a, b)
      | none => none

/-- Python `sep in s` (substring containment). -/
def strContains (sep s : Str) : Bool := (breakAt sep s).isSome

/-- Python `s.partition(sep)`: split at the first occurrence of `sep`;
the `Bool` records whether the separator was found (Python returns the
separator itself there). -/
def pyPart (sep s : Str) : Str × Bool × Str :=
  match breakAt sep s with
  | some (a, b) => (a, true, b)
  | none => (s, false, [])

/-- Fuelled worker for `splitSep`; the fuel only has to dominate the
length of the string, which bounds the number of separator occurrences. -/
def splitSepFuel (sep : Str) : Nat → Str → List Str
  | 0, s => [s]
  | fuel + 1, s =>
    match breakAt sep s with
    | none => [s]
    | some (a, b) => a :: splitSepFuel sep fuel b

/-- Python `s.split(sep)` for a non-empty separator (returns `[s]` for an
empty separator, a case the sources never exercise). -/
def splitSep (sep : Str) (s : Str) : List Str :=
  if sep = [] then [s] else splitSepFuel sep s.length s

/-- The fixed keyword list of `FilterEngine.blocked_keywords`. -/
def blockedKeywords : List Str := ["adult".toList, "malware".toList, "phishing".toList]

/-- `FilterEngine.is_blocked` from `filter_engine.py`: the loaded domain
blocklist is the `domains` parameter, the keyword list is the fixed
built-in one. -/
def is_blocked (domains : List Str) (host url : Str) : Bool :=
  let hostL := strLower host
  let urlL := strLower url
  (domains.any fun d => hostL == strLower d || (('.' :: strLower d).isSuffixOf hostL))
    || blockedKeywords.any fun k => strContains k urlL

example : is_blocked ["example.com".toList] "mail.example.com".toList "http://x/".toList = true := by decide

example : is_blocked ["example.com".toList] "notexample.com".toList "http://x/".toList = false := by decide

theorem breakAt_isSome_iff (sep : Str) : ∀ s : Str, (breakAt sep s).isSome = true ↔ sep <:+: s := by
  intro s
  induction s with
  | nil =>
    by_cases h : sep = [] <;> simp [breakAt, h]
  | cons c rest ih =>
    rw [breakAt]
    by_cases h : sep.isPrefixOf (c :: rest)
    · have := List.isPrefixOf_iff_prefix.1 h
      simp [h, this.isInfix]
    · simp only [h, if_false]
      rw [List.infix_cons_iff]
      have hnp : ¬ sep <+: (c :: rest) := fun hp => h (List.isPrefixOf_iff_prefix.2 hp)
      cases hb : breakAt sep rest with
      | none =>
        simp only [hb, Option.isSome_none]
        simp only [hb, Option.isSome_none] at ih
        simp [hnp, ← ih]
      | some p =>
        simp only [hb, Option.isSome_some] at ih ⊢
        simp [hnp, ← ih]

theorem strContains_iff (sep s : Str) : strContains sep s = true ↔ sep <:+: s := by
  rw [strContains, breakAt_isSome_iff]

theorem breakAt_eq_none_iff (sep s : Str) : breakAt sep s = none ↔ ¬ sep <:+: s := by
  rw [← strContains_iff]
  simp [strContains, Option.isSome_iff_ne_none]

/-- Python whitespace characters recognised by `str.strip()` / `int()`
(ASCII model). -/
def isPySpace (c : Char) : Bool :=
  c = ' ' || c = '\t' || c = '\n' || c = '\r' || c = Char.ofNat 11 || c = Char.ofNat 12

/-- Python `s.strip()` (ASCII model). -/
def pyStrip (s : Str) : Str :=
  ((s.dropWhile isPySpace).reverse.dropWhile isPySpace).reverse

/-- Digit runs as accepted by Python `int()`: non-empty, single
underscores allowed strictly between digits. -/
def udigits : Str → Bool
  | [] => false
  | [c] => c.isDigit
  | c :: '_' :: rest => c.isDigit && udigits rest
  | c :: rest => c.isDigit && udigits rest

/-- Numeric value of a digit run, ignoring underscores. -/
def digitsVal (s : Str) : Nat :=
  (s.filter (fun c => c != '_')).foldl (fun n c => 10 * n + (c.toNat - 48)) 0

/-- Python `int(s)` / `int(s, 10)`: surrounding whitespace stripped,
optional sign, then a digit run; `none` models `ValueError`. -/
def pyInt? (s : Str) : Option Int :=
  match pyStrip s with
  | '+' :: r => if udigits r then some (digitsVal r) else none
  | '-' :: r => if udigits r then some (-(digitsVal r : Int)) else none
  | r => if udigits r then some (digitsVal r) else none

/-- Python `dict` of strings: association list, updates keep position,
new keys are appended. -/
abbrev Dict := List (Str × Str)

/-- `d[k]` lookup (exact key match, as in Python). -/
def dictGet? (d : Dict) (k : Str) : Option Str :=
  (d.find? (fun kv => kv.1 == k)).map (·.2)

/-- `d[k] = v`: update in place when the key exists, append otherwise. -/
def dictInsert (d : Dict) (k v : Str) : Dict :=
  if d.any (fun kv => kv.1 == k) then d.map (fun kv => if kv.1 == k then (k, v) else kv)
  else d ++ [(k, v)]

def CRLF : Str := ['\r', '\n']

/-- The header terminator `\r\n\r\n`. -/
def CRLF2 : Str := ['\r', '\n', '\r', '\n']

/-- The header-line loop of `parse_http_request`: lines with a colon are
split once on the first colon, key and value stripped, stored in the
dict (so a duplicate name keeps the last value). -/
def headerLinesToDict (lines : List Str) : Dict :=
  lines.foldl (fun d line =>
    if strContains [':'] line then
      dictInsert d (pyStrip (pyPart [':'] line).1) (pyStrip (pyPart [':'] line).2.2)
    else d) []

/-- `parse_http_request` from `http_parser.py`. `none` models the
`(), {}, b""` failure return. -/
def parse_http_request (req : Str) : Option ((Str × Str × Str) × Dict × Str) :=
  let p := pyPart CRLF2 req
  let lines := splitSep CRLF p.1
  match splitSep [' '] (lines.headD []) with
  | [m, u, v] => some ((m, u, v), headerLinesToDict lines.tail, p.2.2)
  | _ => none

example :
    parse_http_request "GET / HTTP/1.1\r\nHost: x\r\n\r\nBODY".toList =
      some (("GET".toList, "/".toList, "HTTP/1.1".toList),
        [("Host".toList, "x".toList)], "BODY".toList) := by decide

def httpPre : Str := "http://".toList
def httpsPre : Str := "https://".toList

/-- The components of `urllib.parse.urlsplit` that the sources consume,
for URLs whose scheme is http or https. -/
structure UrlParts where
  https : Bool
  netloc : Str
  path : Str
  query : Str

/-- `urlsplit` on a URL with an `http://`/`https://` scheme (any case):
the netloc runs to the first of `/?#`, the fragment is split off at the
first `#`, the query at the first `?`. -/
def urlsplitHttp (url : Str) : UrlParts :=
  let https := httpsPre.isPrefixOf (strLower url)
  let rest := url.drop (if https then 8 else 7)
  let netloc := rest.takeWhile (fun c => !(c == '/' || c == '?' || c == '#'))
  let rest2 := rest.drop netloc.length
  let pq := pyPart ['?'] (pyPart ['#'] rest2).1
  ⟨https, netloc, pq.1, pq.2.2⟩

/-- The tail of Python `s.rpartition(c)`: the text after the last
occurrence of `c`, or all of `s` when `c` is absent. -/
def rpartAfter (c : Char) (s : Str) : Str :=
  (s.reverse.takeWhile (fun a => a != c)).reverse

/-- `SplitResult._hostinfo`: strip userinfo at the last `@`, then either
the bracketed IPv6 form or a split at the first `:`. -/
def splitHostPort (netloc : Str) : Str × Str :=
  let hostinfo := rpartAfter '@' netloc
  if strContains ['['] hostinfo then
    let bracketed := (pyPart ['['] hostinfo).2.2
    ((pyPart [']'] bracketed).1, (pyPart [':'] (pyPart [']'] bracketed).2.2).2.2)
  else ((pyPart [':'] hostinfo).1, (pyPart [':'] hostinfo).2.2)

/-- `SplitResult.port`: `some none` when no port is given, `none` when
accessing the property raises `ValueError` (non-numeric or out of
range), `some (some p)` otherwise. -/
def urlPort? (portStr : Str) : Option (Option Int) :=
  if portStr = [] then some none
  else
    match pyInt? portStr with
    | none => none
    | some p => if 0 ≤ p ∧ p ≤ 65535 then some (some p) else none

/-- `parse_target_from_request` from `http_parser.py`.  The outer `none`
models the `ValueError` that `parsed.port` raises on a malformed port of
an absolute URI (it propagates out of the function); the no-host failure
return is `some ([], 0, [])` exactly as in the source. -/
def parse_target_from_request (url : Str) (headers : Dict) : Option (Str × Int × Str) :=
  if httpPre.isPrefixOf url || httpsPre.isPrefixOf url then
    let u := urlsplitHttp url
    let hp := splitHostPort u.netloc
    match urlPort? hp.2 with
    | none => none
    | some portOpt =>
      let dflt : Int := if u.https then 443 else 80
      let port : Int :=
        match portOpt with
        | some p => if p = 0 then dflt else p
        | none => dflt
      let path0 := if u.path = [] then ['/'] else u.path
      some (strLower hp.1, port, if u.query = [] then path0 else path0 ++ '?' :: u.query)
  else
    let hostHeader := (dictGet? headers "Host".toList).getD []
    if hostHeader = [] then some ([], 0, [])
    else
      let path := if url = [] then ['/'] else url
      if strContains [':'] hostHeader then
        some ((pyPart [':'] hostHeader).1, (pyInt? (pyPart [':'] hostHeader).2.2).getD 80, path)
      else some (hostHeader, 80, path)

example :
    parse_target_from_request "http://example.com/a?b=1".toList [] =
      some ("example.com".toList, 80, "/a?b=1".toList) := by decide

example :
    parse_target_from_request "https://EXAMPLE.com:8443".toList [] =
      some ("example.com".toList, 8443, "/".toList) := by decide

example :
    parse_target_from_request "/x".toList [("Host".toList, "h:90".toList)] =
      some ("h".toList, 90, "/x".toList) := by decide

example :
    parse_target_from_request "/x".toList [("Host".toList, "example.com:abc".toList)] =
      some ("example.com".toList, 80, "/x".toList) := by decide

/-- `build_forward_request` from `http_parser.py`. -/
def build_forward_request (method path version : Str) (headers : Dict) (body : Str) : Str :=
  let fh := headers.filter (fun kv => !(strLower kv.1 == "proxy-connection".toList))
  let fh2 := dictInsert fh "Connection".toList "close".toList
  (method ++ ' ' :: path ++ ' ' :: version ++ CRLF)
    ++ (fh2.map (fun kv => kv.1 ++ ':' :: ' ' :: kv.2 ++ CRLF)).flatten
    ++ CRLF ++ body

example :
    build_forward_request "GET".toList "/".toList "HTTP/1.1".toList
      [("Host".toList, "x".toList)] "B".toList =
      "GET / HTTP/1.1\r\nHost: x\r\nConnection: close\r\n\r\nB".toList := by decide

/-- `MetricsLogger.FIELDNAMES`: the nine-column schema. -/
def FIELDNAMES : List Str :=
  ["timestamp".toList, "client_ip".toList, "method".toList, "url".toList, "host".toList,
    "latency_ms".toList, "request_bytes".toList, "response_bytes".toList, "blocked".toList]

/-- Index of the last occurrence of `x`, offset by `base`; models the
`{name: idx for idx, name in enumerate(existing_header)}` dict, where a
duplicated name keeps its last index. -/
def lastIdxAux (x : Str) : List Str → Nat → Option Nat
  | [], _ => none
  | y :: t, base =>
    match lastIdxAux x t (base + 1) with
    | some j => some j
    | none => if y = x then some base else none

def lastIdx? (l : List Str) (x : Str) : Option Nat := lastIdxAux x l 0

/-- The per-row normalisation loop of `MetricsLogger._ensure_header`. -/
def migrateRow (oldHeader row : List Str) : List Str :=
  FIELDNAMES.map fun f =>
    match lastIdx? oldHeader f with
    | some i =>
      match row.get? i with
      | some v => v
      | none => if f = "blocked".toList then "0".toList else []
    | none => if f = "blocked".toList then "0".toList else []

/-- `MetricsLogger._ensure_header`, as a function from the CSV rows of
the existing file (`none` = the file does not exist) to the rows written
back.  When the header already matches, the file is not rewritten, which
the identity result models. -/
def ensure_header : Option (List (List Str)) → List (List Str)
  | none => [FIELDNAMES]
  | some rows =>
    let existing := rows.headD []
    if existing = FIELDNAMES then rows
    else FIELDNAMES :: rows.tail.map (migrateRow existing)

/-- The 403 response of `ClientHandler._send_forbidden`. -/
def forbiddenResponse (host : Str) : Str :=
  ("HTTP/1.1 403 Forbidden\r\nContent-Type: text/plain\r\nConnection: close\r\n\r\nAccess to ".toList)
    ++ host ++ (" is blocked by proxy policy.".toList)

/-- The 400 response of `ClientHandler._send_bad_request`. -/
def badRequestResponse : Str :=
  "HTTP/1.1 400 Bad Request\r\nContent-Type: text/plain\r\nConnection: close\r\n\r\nMalformed request received by proxy.".toList

/-- The 502 response of `ClientHandler._send_bad_gateway`. -/
def badGatewayResponse : Str :=
  "HTTP/1.1 502 Bad Gateway\r\nContent-Type: text/plain\r\nConnection: close\r\n\r\nProxy could not reach the upstream server.".toList

/-- The CONNECT success line. -/
def establishedResponse : Str := "HTTP/1.1 200 Connection Established\r\n\r\n".toList

/-- One row of `metrics.csv`, as passed to `MetricsLogger.log`
(the timestamp column is owned by the logger and not modelled). -/
structure MetricsRec where
  clientIp : Str
  method : Str
  url : Str
  host : Str
  latencyMs : Nat
  requestBytes : Nat
  responseBytes : Nat
  blocked : Nat
deriving DecidableEq

/-- Externally visible actions of a connection handler. -/
inductive Event where
  | sendClient (data : Str)
  | connectUpstream (host : Str) (port : Int)
  | metric (m : MetricsRec)
deriving DecidableEq

def isMetric : Event → Bool
  | .metric _ => true
  | _ => false

/-- Number of metrics rows appended in a trace. -/
def countMetrics (t : List Event) : Nat := (t.filter isMetric).length

/-- How the upstream transfer of `_proxy_request` ends: clean EOF or an
I/O error raised mid-stream. -/
inductive UpEnd
  | eofEnd
  | errEnd
deriving DecidableEq

/-- Behaviour of the upstream socket for a forwarded request: the
connect attempt fails, or it succeeds and the upstream yields the given
response chunks before the transfer ends as `fin` says. -/
inductive Upstream where
  | connectFail
  | conn (chunks : List Str) (fin : UpEnd)
deriving DecidableEq

/-- `ClientHandler._proxy_request`: any exception from the connect or
the relay loop sends the 502 and returns before the metrics call; only
the clean-EOF path reaches `metrics_logger.log`. -/
def proxy_request (up : Upstream) (host : Str) (port : Int) (reqBytes : Str)
    (ip method url : Str) (elapsed : Nat) : List Event :=
  match up with
  | .connectFail => [.connectUpstream host port, .sendClient badGatewayResponse]
  | .conn chunks fin =>
    let relay := chunks.map Event.sendClient
    match fin with
    | .errEnd => .connectUpstream host port :: relay ++ [.sendClient badGatewayResponse]
    | .eofEnd => .connectUpstream host port :: relay ++
        [.metric ⟨ip, method, url, host, elapsed, reqBytes.length, (chunks.map List.length).sum, 0⟩]

/-- One round of the `select` loop in `_tunnel_bidirectional`: which of
the two sockets are readable and what `recv` returns on each (`some []`
is EOF); `⟨none, none⟩` is a 30-second timeout with no readable socket. -/
structure TRound where
  fromClient : Option Str
  fromUpstream : Option Str
deriving DecidableEq

/-- `ClientHandler._tunnel_bidirectional` over a finite prefix of select
rounds; `none` means the loop is still running once the rounds are
exhausted, `some n` that it returned the upstream→client byte count `n`.
On a timeout round the code executes `continue`.  Within a round the
client socket is served first, as `select.select` lists it first. -/
def tunnelRun : List TRound → Nat → Option Nat
  | [], _ => none
  | r :: rest, n =>
    match r.fromClient, r.fromUpstream with
    | none, none => tunnelRun rest n
    | some d, none => if d = [] then some n else tunnelRun rest n
    | none, some du => if du = [] then some n else tunnelRun rest (n + du.length)
    | some d, some du =>
      if d = [] then some n
      else if du = [] then some n
      else tunnelRun rest (n + du.length)

/-- Python `value.rsplit(":", 1)` assuming a colon occurs. -/
def rsplitColon (s : Str) : Str × Str :=
  (((s.reverse.dropWhile (fun a => a != ':')).tail).reverse,
    (s.reverse.takeWhile (fun a => a != ':')).reverse)

/-- `ClientHandler._parse_connect_target`. -/
def parse_connect_target (authority : Str) : Str × Int :=
  let value := pyStrip authority
  if value = [] then ([], 0)
  else if value.head? = some '[' then
    if strContains [']'] value then
      let inner := value.tail
      let host := inner.takeWhile (fun a => a != ']')
      let remainder := (inner.dropWhile (fun a => a != ']')).tail
      if remainder.head? = some ':' then
        match pyInt? remainder.tail with
        | some p => (pyStrip host, p)
        | none => ([], 0)
      else ([], 0)
    else ([], 0)
  else if strContains [':'] value then
    match pyInt? (rsplitColon value).2 with
    | some p => (pyStrip (rsplitColon value).1, p)
    | none => ([], 0)
  else ([], 0)

example : parse_connect_target "example.com:443".toList = ("example.com".toList, 443) := by decide

example : parse_connect_target "[::1]:443".toList = ("::1".toList, 443) := by decide

example : parse_connect_target "example.com".toList = ([], 0) := by decide

/-- Behaviour of the upstream socket for a CONNECT tunnel. -/
inductive TunUp where
  | connectFail
  | conn (rounds : List TRound)

/-- `ClientHandler._handle_connect` (after the request was received and
parsed): parse the authority, filter, then connect and tunnel; an
exception from the connect sends the 502 and skips the metrics call.  A
tunnel whose rounds end without EOF is still running, so its trace has
no metrics row yet. -/
def handle_connect (domains : List Str) (up : TunUp) (reqLen : Nat)
    (method url ip : Str) (elapsed : Nat) : List Event :=
  let t := parse_connect_target url
  let host := t.1
  let port := t.2
  if host = [] ∨ port ≤ 0 then [.sendClient badRequestResponse]
  else if is_blocked domains host url then
    [.sendClient (forbiddenResponse host), .metric ⟨ip, method, url, host, 0, 0, 0, 1⟩]
  else
    match up with
    | .connectFail => [.connectUpstream host port, .sendClient badGatewayResponse]
    | .conn rounds =>
      match tunnelRun rounds 0 with
      | some n => [.connectUpstream host port, .sendClient establishedResponse,
          .metric ⟨ip, method, url, host, elapsed, reqLen, n, 0⟩]
      | none => [.connectUpstream host port, .sendClient establishedResponse]

/-- The header-reading loop of `_recv_http_request`: accumulate chunks
until the terminator appears in the buffer, the peer closes (`none`), or
a chunk pushes the buffer past 64 KiB (then the loop breaks and the
truncated buffer is processed). -/
def recvHeaders : List Str → Str → Option (Str × List Str)
  | [], buf => if strContains CRLF2 buf then some (buf, []) else none
  | c :: rest, buf =>
    if strContains CRLF2 buf then some (buf, c :: rest)
    else if c = [] then none
    else if 65536 < (buf ++ c).length then some (buf ++ c, rest)
    else recvHeaders rest (buf ++ c)

/-- The `Content-Length` scan of `_recv_http_request` over the header
lines after the request line. -/
def contentLengthOf (lines : List Str) : Int :=
  match lines.find? (fun line => ("content-length:".toList).isPrefixOf (strLower line)) with
  | none => 0
  | some line => (pyInt? (pyStrip (pyPart [':'] line).2.2)).getD 0

/-- The body-reading loop of `_recv_http_request`. -/
def readBody (cl : Int) : List Str → Str → Str
  | [], body => body
  | c :: rest, body =>
    if (body.length : Int) < cl then
      (if c = [] then body else readBody cl rest (body ++ c))
    else body

/-- `ClientHandler._recv_http_request` over the chunk sequence the
client socket yields; returns `[]` exactly when the code returns
`b""`. -/
def recv_http_request (chunks : List Str) : Str :=
  match recvHeaders chunks [] with
  | none => []
  | some (buf, rest) =>
    let p := pyPart CRLF2 buf
    let headerBytes := p.1
    headerBytes ++ CRLF2 ++ readBody (contentLengthOf (splitSep CRLF headerBytes).tail) rest p.2.2

example :
    recv_http_request ["GET / HTTP/1.1\r\nContent-Length: 3\r\n\r\nab".toList, "c".toList] =
      "GET / HTTP/1.1\r\nContent-Length: 3\r\n\r\nabc".toList := by decide

/-- `ClientHandler.handle`: receive, parse, branch on CONNECT, resolve
the target, filter, then forward.  A `ValueError` escaping
`parse_target_from_request` is caught by the outer handler, which only
logs and closes (empty trace). -/
def handle (domains : List Str) (chunks : List Str) (upF : Upstream) (upT : TunUp)
    (ip : Str) (elapsed : Nat) : List Event :=
  let requestData := recv_http_request chunks
  if requestData = [] then []
  else
    match parse_http_request requestData with
    | none => [.sendClient badRequestResponse]
    | some ((method, url, version), headers, body) =>
      if strUpper method = "CONNECT".toList then
        handle_connect domains upT requestData.length method url ip elapsed
      else
        match parse_target_from_request url headers with
        | none => []
        | some (host, port, path) =>
          if host = [] then [.sendClient badRequestResponse]
          else if is_blocked domains host url then
            [.sendClient (forbiddenResponse host), .metric ⟨ip, method, url, host, 0, 0, 0, 1⟩]
          else
            let path2 :=
              if httpPre.isPrefixOf (strLower path) || httpsPre.isPrefixOf (strLower path) then
                let u := urlsplitHttp path
                let p0 := if u.path = [] then ['/'] else u.path
                if u.query = [] then p0 else p0 ++ '?' :: u.query
              else path
            proxy_request upF host port (build_forward_request method path2 version headers body)
              ip method url elapsed

/-- C5: `is_blocked(host, url)` is true iff, case-insensitively, `host`
equals a blocklist entry, or `host` ends with a dot followed by an entry,
or `url` contains one of the configured keywords as a substring. -/
theorem c5_is_blocked_iff (domains : List Str) (host url : Str) :
    is_blocked domains host url = true ↔
      ((∃ d ∈ domains, strLower host = strLower d ∨ ('.' :: strLower d) <:+ strLower host)
        ∨ ∃ k ∈ blockedKeywords, k <:+: strLower url) := by
  simp [is_blocked, List.any_eq_true, Bool.or_eq_true, List.isSuffixOf_iff_suffix,
    strContains_iff, beq_iff_eq]

theorem countMetrics_append (a b : List Event) :
    countMetrics (a ++ b) = countMetrics a + countMetrics b := by
  simp [countMetrics, List.filter_append]

theorem countMetrics_sends (l : List Str) : countMetrics (l.map Event.sendClient) = 0 := by
  induction l with
  | nil => rfl
  | cons c rest ih => simp [countMetrics, isMetric] at ih ⊢

/-- C10: for an origin-form request whose `Host` header carries a colon
followed by a non-integer port suffix, `parse_target_from_request` does
not fail: it keeps the text before the first colon as the host and
silently defaults the port to 80, so the request proceeds. -/
theorem c10_invalid_host_port_defaults (url : Str) (headers : Dict) (hh : Str)
    (habs1 : httpPre.isPrefixOf url = false) (habs2 : httpsPre.isPrefixOf url = false)
    (hget : dictGet? headers ("Host".toList) = some hh) (hne : hh ≠ [])
    (hcolon : strContains [':'] hh = true)
    (hbad : pyInt? (pyPart [':'] hh).2.2 = none) :
    parse_target_from_request url headers =
      some ((pyPart [':'] hh).1, 80, if url = [] then ['/'] else url) := by
  have hget2 : dictGet? headers (['H', 'o', 's', 't'] : Str) = some hh := hget
  unfold parse_target_from_request
  simp [habs1, habs2, hget2, hne, hcolon, hbad]

/-- Witness for C10 at `Host: example.com:abc`. -/
theorem c10_witness :
    parse_target_from_request "/x".toList [("Host".toList, "example.com:abc".toList)] =
      some ("example.com".toList, 80, "/x".toList) := by
  have h := c10_invalid_host_port_defaults "/x".toList
    [("Host".toList, "example.com:abc".toList)] ("example.com:abc".toList)
    (by decide) (by decide) (by decide) (by decide) (by decide) (by decide)
  exact h.trans (by decide)

/-- C2: whenever the resolved host of a plain or CONNECT request is
blocked, the trace is exactly the 403 send (whose body contains the
host) followed by one metrics row with blocked=1 and zero latency and
byte counts; in particular no upstream connect attempt occurs. -/
theorem c2_blocked_no_upstream :
    (∀ domains chunks upF upT ip e m u v hs b host port path,
      recv_http_request chunks ≠ [] →
      parse_http_request (recv_http_request chunks) = some ((m, u, v), hs, b) →
      strUpper m ≠ "CONNECT".toList →
      parse_target_from_request u hs = some (host, port, path) →
      host ≠ [] →
      is_blocked domains host u = true →
      handle domains chunks upF upT ip e =
        [.sendClient (forbiddenResponse host), .metric ⟨ip, m, u, host, 0, 0, 0, 1⟩] ∧
      (∀ h p, Event.connectUpstream h p ∉ handle domains chunks upF upT ip e) ∧
      host <:+: forbiddenResponse host)
    ∧
    (∀ domains chunks upF upT ip e m u v hs b,
      recv_http_request chunks ≠ [] →
      parse_http_request (recv_http_request chunks) = some ((m, u, v), hs, b) →
      strUpper m = "CONNECT".toList →
      (parse_connect_target u).1 ≠ [] →
      0 < (parse_connect_target u).2 →
      is_blocked domains (parse_connect_target u).1 u = true →
      handle domains chunks upF upT ip e =
        [.sendClient (forbiddenResponse (parse_connect_target u).1),
          .metric ⟨ip, m, u, (parse_connect_target u).1, 0, 0, 0, 1⟩] ∧
      (∀ h p, Event.connectUpstream h p ∉ handle domains chunks upF upT ip e) ∧
      (parse_connect_target u).1 <:+: forbiddenResponse (parse_connect_target u).1) := by
  constructor
  · intro domains chunks upF upT ip e m u v hs b host port path hne hp hm ht hh hb
    have htrace : handle domains chunks upF upT ip e =
        [.sendClient (forbiddenResponse host), .metric ⟨ip, m, u, host, 0, 0, 0, 1⟩] := by
      have hm2 : strUpper m ≠ (['C', 'O', 'N', 'N', 'E', 'C', 'T'] : Str) := hm
      unfold handle
      simp [hne, hp, hm2, ht, hh, hb]
    refine ⟨htrace, ?_, ?_⟩
    · intro h p
      rw [htrace]
      simp
    · exact ⟨"HTTP/1.1 403 Forbidden\r\nContent-Type: text/plain\r\nConnection: close\r\n\r\nAccess to ".toList,
        " is blocked by proxy policy.".toList, rfl⟩
  · intro domains chunks upF upT ip e m u v hs b hne hp hm hh hpos hb
    have htrace : handle domains chunks upF upT ip e =
        [.sendClient (forbiddenResponse (parse_connect_target u).1),
          .metric ⟨ip, m, u, (parse_connect_target u).1, 0, 0, 0, 1⟩] := by
      unfold handle handle_connect
      have hng : ¬((parse_connect_target u).1 = [] ∨ (parse_connect_target u).2 ≤ 0) := by
        push_neg
        exact ⟨hh, hpos⟩
      simp [hne, hp, hm, hng, hb]
    refine ⟨htrace, ?_, ?_⟩
    · intro h p
      rw [htrace]
      simp
    · exact ⟨"HTTP/1.1 403 Forbidden\r\nContent-Type: text/plain\r\nConnection: close\r\n\r\nAccess to ".toList,
        " is blocked by proxy policy.".toList, rfl⟩

/-- Witness for C2: a blocked plain request produces exactly the 403
send and one blocked metrics row. -/
theorem c2_witness :
    handle ["example.com".toList]
        ["GET http://example.com/ HTTP/1.1\r\nHost: example.com\r\n\r\n".toList]
        .connectFail .connectFail "1.2.3.4".toList 5 =
      [.sendClient (forbiddenResponse "example.com".toList),
        .metric ⟨"1.2.3.4".toList, "GET".toList, "http://example.com/".toList,
          "example.com".toList, 0, 0, 0, 1⟩] := by
  have h := c2_blocked_no_upstream.1 ["example.com".toList]
    ["GET http://example.com/ HTTP/1.1\r\nHost: example.com\r\n\r\n".toList]
    .connectFail .connectFail "1.2.3.4".toList 5
    "GET".toList "http://example.com/".toList "HTTP/1.1".toList
    [("Host".toList, "example.com".toList)] []
    "example.com".toList 80 "/".toList
    (by decide) (by decide) (by decide) (by decide) (by decide) (by decide)
  exact h.1

/-- C1 counterexample: this request resolves `example.com` and passes the
filter, so it reaches the forward stage (the connect attempt is in the
trace); the connect fails, a 502 is sent, and the trace contains zero
metrics records — not the one record the claim promises for a failed
upstream transfer. -/
theorem c1_counterexample :
    handle [] ["GET http://example.com/ HTTP/1.1\r\nHost: example.com\r\n\r\n".toList]
        .connectFail .connectFail "1.2.3.4".toList 5 =
      [.connectUpstream "example.com".toList 80, .sendClient badGatewayResponse] ∧
    countMetrics
      (handle [] ["GET http://example.com/ HTTP/1.1\r\nHost: example.com\r\n\r\n".toList]
        .connectFail .connectFail "1.2.3.4".toList 5) = 0 := by
  constructor
  · decide
  · decide

/-- C1 as amended: for a request at the forward stage, exactly one
metrics record is appended iff the upstream transfer completes with a
clean EOF; a connect failure or a mid-stream I/O error appends no record
(a 502 is sent instead).  Likewise at the tunnel stage: one record iff
the tunnel loop returns, none when the CONNECT connect attempt fails. -/
theorem c1_amended :
    (∀ (host : Str) (port : Int) (req ip m u : Str) (e : Nat) (chunksUp : List Str) (fin : UpEnd),
      countMetrics (proxy_request (.conn chunksUp fin) host port req ip m u e) =
        (if fin = UpEnd.eofEnd then 1 else 0) ∧
      countMetrics (proxy_request .connectFail host port req ip m u e) = 0 ∧
      proxy_request (.conn chunksUp .eofEnd) host port req ip m u e =
        Event.connectUpstream host port :: chunksUp.map Event.sendClient ++
          [.metric ⟨ip, m, u, host, e, req.length, (chunksUp.map List.length).sum, 0⟩])
    ∧
    (∀ (domains : List Str) (rounds : List TRound) (reqLen : Nat) (m u ip : Str) (e : Nat)
        (host : Str) (port : Int),
      parse_connect_target u = (host, port) → host ≠ [] → 0 < port →
      is_blocked domains host u = false →
      countMetrics (handle_connect domains (.conn rounds) reqLen m u ip e) =
        (if (tunnelRun rounds 0).isSome then 1 else 0) ∧
      countMetrics (handle_connect domains .connectFail reqLen m u ip e) = 0) := by
  constructor
  · intro host port req ip m u e chunksUp fin
    refine ⟨?_, by simp [proxy_request, countMetrics, isMetric], by simp [proxy_request]⟩
    cases fin with
    | eofEnd =>
      simp [proxy_request, countMetrics_append, countMetrics_sends, countMetrics, isMetric]
    | errEnd =>
      simp [proxy_request, countMetrics_append, countMetrics_sends, countMetrics, isMetric]
  · intro domains rounds reqLen m u ip e host port hpc hh hpos hb
    have hng : ¬(host = [] ∨ port ≤ 0) := by
      push_neg
      exact ⟨hh, hpos⟩
    constructor
    · unfold handle_connect
      rw [hpc]
      simp only [hng, if_false, hb, Bool.false_eq_true]
      cases ht : tunnelRun rounds 0 with
      | none => simp [countMetrics, isMetric]
      | some n => simp [countMetrics, isMetric]
    · unfold handle_connect
      rw [hpc]
      simp only [hng, if_false, hb, Bool.false_eq_true]
      simp [countMetrics, isMetric]

/-- Witness for C1 (amended): a successful forward of two chunks yields
exactly one metrics row carrying the accumulated byte counts, and a
failed tunnel connect yields none. -/
theorem c1_amended_witness :
    proxy_request (.conn ["ab".toList, "c".toList] .eofEnd) "h".toList 80 "REQ".toList
        "ip".toList "GET".toList "u".toList 7 =
      Event.connectUpstream "h".toList 80 ::
        [Event.sendClient "ab".toList, Event.sendClient "c".toList] ++
        [.metric ⟨"ip".toList, "GET".toList, "u".toList, "h".toList, 7, 3, 3, 0⟩] ∧
    countMetrics (handle_connect [] .connectFail 9 "CONNECT".toList "h:443".toList "ip".toList 7) = 0 := by
  constructor
  · have h := (c1_amended.1 "h".toList 80 "REQ".toList "ip".toList "GET".toList "u".toList 7
      ["ab".toList, "c".toList] UpEnd.eofEnd).2.2
    exact h.trans (by decide)
  · exact (c1_amended.2 [] [] 9 "CONNECT".toList "h:443".toList "ip".toList 7 "h".toList 443
      (by decide) (by decide) (by decide) (by decide)).2

/-- C4 counterexample: five consecutive 30-second idle select rounds (no
data on either socket) leave the tunnel loop still running — the idle
timeout does not end the tunnel, contrary to the claim. -/
theorem c4_counterexample :
    tunnelRun (List.replicate 5 ⟨none, none⟩) 0 = none := by decide

/-- C4 as amended: the relay loop returns iff some select round delivers
an EOF (`recv` returning no data) on one of the two sockets; an idle
timeout round merely re-enters `select`, so while both peers stay silent
but connected the loop runs forever. -/
theorem c4_amended (rounds : List TRound) (n : Nat) :
    tunnelRun rounds n = none ↔
      ∀ r ∈ rounds, r.fromClient ≠ some [] ∧ r.fromUpstream ≠ some [] := by
  induction rounds generalizing n with
  | nil => simp [tunnelRun]
  | cons r rest ih =>
    obtain ⟨c, u⟩ := r
    cases c with
    | none =>
      cases u with
      | none => simp [tunnelRun, ih]
      | some du =>
        by_cases hdu : du = [] <;> simp [tunnelRun, hdu, ih]
    | some d =>
      cases u with
      | none =>
        by_cases hd : d = [] <;> simp [tunnelRun, hd, ih]
      | some du =>
        by_cases hd : d = [] <;> by_cases hdu : du = [] <;> simp [tunnelRun, hd, hdu, ih]

theorem flatten_has_of_mem {α : Type} (f : α → Str) (x : α) :
    ∀ l : List α, x ∈ l → f x <:+: (l.map f).flatten := by
  intro l hx
  induction l with
  | nil => cases hx
  | cons c rest ih =>
    rcases List.mem_cons.1 hx with h | h
    · subst h
      exact ⟨[], (rest.map f).flatten, by simp⟩
    · obtain ⟨a, b, hab⟩ := ih h
      exact ⟨f c ++ a, b, by simp [← hab]⟩

/-- C8 counterexample: a client header whose name is `connection` in
lower case survives the `Proxy-Connection` filter and is not touched by
the exact-key `Connection` update, so the serialized forward request
still carries `connection: keep-alive` (plus the appended
`Connection: close`) — it does ask the upstream to keep the connection
alive, contrary to the claim. -/
theorem c8_counterexample :
    build_forward_request "GET".toList "/".toList "HTTP/1.1".toList
        [("connection".toList, "keep-alive".toList)] [] =
      "GET / HTTP/1.1\r\nconnection: keep-alive\r\nConnection: close\r\n\r\n".toList ∧
    strContains "connection: keep-alive".toList
      (build_forward_request "GET".toList "/".toList "HTTP/1.1".toList
        [("connection".toList, "keep-alive".toList)] []) = true := by
  constructor
  · decide
  · decide

theorem build_forward_eq (m p v : Str) (hs : Dict) (b : Str) :
    build_forward_request m p v hs b =
      (m ++ ' ' :: p ++ ' ' :: v ++ CRLF)
        ++ ((dictInsert (hs.filter (fun kv => !(strLower kv.1 == "proxy-connection".toList)))
              "Connection".toList "close".toList).map
            (fun kv => kv.1 ++ ':' :: ' ' :: kv.2 ++ CRLF)).flatten
        ++ CRLF ++ b := rfl

/-- C8 as amended: the serialization is the request line, then the
headers in their original insertion order with `Proxy-Connection`
removed case-insensitively and the exact-case key `Connection` set to
`close` (replaced in place when present, appended at the end otherwise),
a blank line, and the body verbatim.  Every other header — including a
differently-cased `connection` header — is forwarded unchanged, and the
`Connection: close` line always occurs in the output. -/
theorem c8_amended (m p v : Str) (hs : Dict) (b : Str) :
    build_forward_request m p v hs b =
      (m ++ ' ' :: p ++ ' ' :: v ++ CRLF)
        ++ ((if (hs.filter (fun kv => !(strLower kv.1 == "proxy-connection".toList))).any
                (fun kv => kv.1 == "Connection".toList) then
              (hs.filter (fun kv => !(strLower kv.1 == "proxy-connection".toList))).map
                (fun kv => if kv.1 == "Connection".toList then
                  ("Connection".toList, "close".toList) else kv)
            else
              (hs.filter (fun kv => !(strLower kv.1 == "proxy-connection".toList)))
                ++ [("Connection".toList, "close".toList)]).map
            (fun kv => kv.1 ++ ':' :: ' ' :: kv.2 ++ CRLF)).flatten
        ++ CRLF ++ b ∧
    (∀ kv ∈ hs, strLower kv.1 ≠ "proxy-connection".toList → kv.1 ≠ "Connection".toList →
      (kv.1 ++ ':' :: ' ' :: kv.2 ++ CRLF) <:+: build_forward_request m p v hs b) ∧
    ("Connection: close\r\n".toList <:+: build_forward_request m p v hs b) := by
  refine ⟨rfl, ?_, ?_⟩
  · intro kv hkv hnpc hnconn
    have hpred : (!(strLower kv.1 == "proxy-connection".toList)) = true := by
      simp only [Bool.not_eq_true', beq_eq_false_iff_ne, ne_eq]
      exact hnpc
    have hmemf : kv ∈ hs.filter (fun kv => !(strLower kv.1 == "proxy-connection".toList)) :=
      List.mem_filter.2 ⟨hkv, hpred⟩
    have hbeqf : (kv.1 == "Connection".toList) = false := beq_eq_false_iff_ne.2 hnconn
    have hmem2 : kv ∈ (dictInsert
        (hs.filter (fun kv => !(strLower kv.1 == "proxy-connection".toList)))
        "Connection".toList "close".toList) := by
      unfold dictInsert
      by_cases hany : (hs.filter (fun kv => !(strLower kv.1 == "proxy-connection".toList))).any
          (fun kv => kv.1 == "Connection".toList)
      · rw [if_pos hany]
        refine List.mem_map.2 ⟨kv, hmemf, ?_⟩
        rw [hbeqf]
        rfl
      · rw [if_neg hany]
        exact List.mem_append_left _ hmemf
    obtain ⟨a, c, hac⟩ := flatten_has_of_mem (fun kv => kv.1 ++ ':' :: ' ' :: kv.2 ++ CRLF) kv _ hmem2
    refine ⟨(m ++ ' ' :: p ++ ' ' :: v ++ CRLF) ++ a, c ++ CRLF ++ b, ?_⟩
    rw [build_forward_eq, ← hac]
    simp only [List.append_assoc]
  · have hmem2 : ("Connection".toList, "close".toList) ∈ (dictInsert
        (hs.filter (fun kv => !(strLower kv.1 == "proxy-connection".toList)))
        "Connection".toList "close".toList) := by
      unfold dictInsert
      by_cases hany : (hs.filter (fun kv => !(strLower kv.1 == "proxy-connection".toList))).any
          (fun kv => kv.1 == "Connection".toList)
      · rw [if_pos hany]
        rcases List.any_eq_true.1 hany with ⟨kv, hkv, hconn⟩
        refine List.mem_map.2 ⟨kv, hkv, ?_⟩
        rw [hconn]
        rfl
      · rw [if_neg hany]
        exact List.mem_append_right _ (by simp)
    obtain ⟨a, c, hac⟩ := flatten_has_of_mem
      (fun kv => kv.1 ++ ':' :: ' ' :: kv.2 ++ CRLF) _ _ hmem2
    refine ⟨(m ++ ' ' :: p ++ ' ' :: v ++ CRLF) ++ a, c ++ CRLF ++ b, ?_⟩
    rw [build_forward_eq, ← hac]
    have he : ("Connection: close\r\n".toList : Str) =
        (fun kv : Str × Str => kv.1 ++ ':' :: ' ' :: kv.2 ++ CRLF)
          (("Connection".toList, "close".toList)) := by decide
    rw [he]
    simp only [List.append_assoc]

/-- Witness for C8 (amended): a surviving header line occurs verbatim in
the serialized output. -/
theorem c8_amended_witness :
    ("X-Test: 1\r\n".toList : Str) <:+:
      build_forward_request "GET".toList "/".toList "HTTP/1.1".toList
        [("X-Test".toList, "1".toList)] [] := by
  have h := (c8_amended "GET".toList "/".toList "HTTP/1.1".toList
    [("X-Test".toList, "1".toList)] []).2.1
    ("X-Test".toList, "1".toList) (by decide) (by decide) (by decide)
  have he : ("X-Test: 1\r\n".toList : Str) =
      "X-Test".toList ++ ':' :: ' ' :: "1".toList ++ CRLF := by decide
  rw [he]
  exact h

theorem lastIdxAux_of_not_mem (x : Str) :
    ∀ (l : List Str) (b : Nat), x ∉ l → lastIdxAux x l b = none := by
  intro l
  induction l with
  | nil => intro b _; rfl
  | cons y t ih =>
    intro b h
    have hy : ¬ y = x := fun hyx => h (hyx ▸ List.mem_cons_self y t)
    have ht : x ∉ t := fun hxt => h (List.mem_cons_of_mem y hxt)
    unfold lastIdxAux
    rw [ih (b + 1) ht, if_neg hy]

theorem lastIdxAux_shift (x : Str) :
    ∀ (l : List Str) (b : Nat), lastIdxAux x l b = (lastIdxAux x l 0).map (· + b) := by
  intro l
  induction l with
  | nil => intro b; rfl
  | cons y t ih =>
    intro b
    show (match lastIdxAux x t (b + 1) with
      | some j => some j
      | none => if y = x then some b else none) =
      ((match lastIdxAux x t 1 with
        | some j => some j
        | none => if y = x then some 0 else none).map (· + b))
    rw [ih (b + 1), ih 1]
    cases h0 : lastIdxAux x t 0 with
    | none =>
      by_cases hy : y = x <;> simp [hy]
    | some j =>
      simp [Nat.add_assoc, Nat.add_comm b 1]

/-- The position of the first occurrence of a column name, used to state
what "remapped by column name" means for a duplicate-free header. -/
def colIdx (l : List Str) (x : Str) : Nat :=
  match l with
  | [] => 0
  | y :: t => if y = x then 0 else colIdx t x + 1

theorem colIdx_lt (l : List Str) (x : Str) (h : x ∈ l) : colIdx l x < l.length := by
  induction l with
  | nil => cases h
  | cons y t ih =>
    by_cases hy : y = x
    · simp [colIdx, hy]
    · have hxt : x ∈ t := by
        rcases List.mem_cons.1 h with h1 | h1
        · exact absurd h1.symm hy
        · exact h1
      simp only [colIdx, hy, if_false, List.length_cons]
      exact Nat.succ_lt_succ (ih hxt)

theorem get?_map_eq {α β : Type} (g : α → β) :
    ∀ (l : List α) (n : Nat), (l.map g).get? n = (l.get? n).map g := by
  intro l
  induction l with
  | nil => intro n; cases n <;> rfl
  | cons y t ih =>
    intro n
    cases n with
    | zero => rfl
    | succ k => exact ih k

theorem map_get?_colIdx {β : Type} (g : Str → β) :
    ∀ (l : List Str) (x : Str), x ∈ l → (l.map g).get? (colIdx l x) = some (g x) := by
  intro l
  induction l with
  | nil => intro x h; cases h
  | cons y t ih =>
    intro x h
    by_cases hy : y = x
    · subst hy
      simp [colIdx]
    · have hxt : x ∈ t := by
        rcases List.mem_cons.1 h with h1 | h1
        · exact absurd h1.symm hy
        · exact h1
      simp only [colIdx, hy, if_false, List.map_cons]
      exact ih x hxt

theorem get?_getD_of_lt : ∀ (l : List Str) (n : Nat), n < l.length →
    l.get? n = some (l.getD n []) := by
  intro l
  induction l with
  | nil => intro n h; cases h
  | cons y t ih =>
    intro n h
    cases n with
    | zero => rfl
    | succ k =>
      have : k < t.length := Nat.lt_of_succ_lt_succ h
      simpa [List.getD_cons_succ] using ih k this

theorem lastIdx_nodup (l : List Str) (x : Str) (hnd : l.Nodup) (hx : x ∈ l) :
    lastIdx? l x = some (colIdx l x) := by
  induction l with
  | nil => cases hx
  | cons y t ih =>
    rcases List.mem_cons.1 hx with h | h
    · subst h
      have hnt : x ∉ t := (List.nodup_cons.1 hnd).1
      show (match lastIdxAux x t 1 with
        | some j => some j
        | none => if x = x then some 0 else none) = some (colIdx (x :: t) x)
      rw [lastIdxAux_of_not_mem x t 1 hnt]
      simp [colIdx]
    · have hyx : y ≠ x := fun hyx => (List.nodup_cons.1 hnd).1 (hyx ▸ h)
      have ihv := ih (List.nodup_cons.1 hnd).2 h
      show (match lastIdxAux x t 1 with
        | some j => some j
        | none => if y = x then some 0 else none) = some (colIdx (y :: t) x)
      rw [lastIdxAux_shift x t 1]
      rw [lastIdx?] at ihv
      rw [ihv]
      simp [colIdx, hyx]

theorem migrateRow_get (oldHeader row : List Str) (f : Str) (hnd : oldHeader.Nodup)
    (hlen : row.length = oldHeader.length) (hf : f ∈ FIELDNAMES) :
    (migrateRow oldHeader row).get? (colIdx FIELDNAMES f) =
      some (if f ∈ oldHeader then row.getD (colIdx oldHeader f) []
            else if f = "blocked".toList then "0".toList else []) := by
  unfold migrateRow
  rw [map_get?_colIdx _ FIELDNAMES f hf]
  by_cases hmem : f ∈ oldHeader
  · rw [lastIdx_nodup _ _ hnd hmem]
    have hlt : colIdx oldHeader f < row.length := by
      rw [hlen]
      exact colIdx_lt oldHeader f hmem
    show some (match row.get? (colIdx oldHeader f) with
      | some v => v
      | none => if f = "blocked".toList then "0".toList else []) = _
    rw [get?_getD_of_lt row _ hlt]
    simp [hmem]
  · have : lastIdx? oldHeader f = none := lastIdxAux_of_not_mem f oldHeader 0 hmem
    rw [this]
    simp [hmem]

/-- C9: initializing the Metrics Sink over an existing file whose header
differs from the nine-column schema rewrites it so the header equals the
schema exactly and every prior data row is present, each value remapped
by column name where the name existed in the old schema, `blocked`
backfilled with "0" and any other absent column backfilled empty; a file
whose header already matches is left unchanged. -/
theorem c9_migration :
    (∀ rows : List (List Str), rows.headD [] = FIELDNAMES → ensure_header (some rows) = rows) ∧
    (∀ rows : List (List Str), rows.headD [] ≠ FIELDNAMES →
      (ensure_header (some rows)).headD [] = FIELDNAMES ∧
      (ensure_header (some rows)).tail.length = rows.tail.length ∧
      (∀ i row f, rows.tail.get? i = some row →
        (rows.headD []).Nodup →
        row.length = (rows.headD []).length →
        f ∈ FIELDNAMES →
        ∃ nr, (ensure_header (some rows)).tail.get? i = some nr ∧
          nr.get? (colIdx FIELDNAMES f) =
            some (if f ∈ rows.headD [] then row.getD (colIdx (rows.headD []) f) []
                  else if f = "blocked".toList then "0".toList else []))) := by
  have hred : ∀ rows : List (List Str), ensure_header (some rows) =
      (if rows.headD [] = FIELDNAMES then rows
       else FIELDNAMES :: rows.tail.map (migrateRow (rows.headD []))) := fun _ => rfl
  constructor
  · intro rows h
    rw [hred, if_pos h]
  · intro rows hne
    have hself : ensure_header (some rows) =
        FIELDNAMES :: rows.tail.map (migrateRow (rows.headD [])) := by
      rw [hred, if_neg hne]
    refine ⟨by rw [hself]; rfl, by rw [hself]; simp, ?_⟩
    intro i row f hrow hnd hlen hf
    refine ⟨migrateRow (rows.headD []) row, ?_, migrateRow_get _ _ _ hnd hlen hf⟩
    rw [hself]
    show (rows.tail.map (migrateRow (rows.headD []))).get? i = _
    rw [get?_map_eq, hrow]
    rfl

/-- Witness for C9: migrating a file with the old eight-column header
(no `blocked`) keeps the row's values and backfills `blocked` with "0";
the new header is the current schema. -/
theorem c9_witness :
    (ensure_header (some [FIELDNAMES.take 8,
        ["t".toList, "i".toList, "GET".toList, "u".toList, "h".toList,
          "5".toList, "10".toList, "20".toList]])).headD [] = FIELDNAMES ∧
    ∃ nr, (ensure_header (some [FIELDNAMES.take 8,
        ["t".toList, "i".toList, "GET".toList, "u".toList, "h".toList,
          "5".toList, "10".toList, "20".toList]])).tail.get? 0 = some nr ∧
      nr.get? 8 = some "0".toList := by
  have h := c9_migration.2 [FIELDNAMES.take 8,
    ["t".toList, "i".toList, "GET".toList, "u".toList, "h".toList,
      "5".toList, "10".toList, "20".toList]] (by decide)
  refine ⟨h.1, ?_⟩
  obtain ⟨nr, h1, h2⟩ := h.2.2 0
    ["t".toList, "i".toList, "GET".toList, "u".toList, "h".toList,
      "5".toList, "10".toList, "20".toList]
    "blocked".toList (by decide) (by decide) (by decide) (by decide)
  exact ⟨nr, h1, h2.trans (by decide)⟩

theorem suffix_cons {l t : Str} (c : Char) (h : l <:+ t) : l <:+ c :: t := by
  obtain ⟨s, rfl⟩ := h
  exact ⟨c :: s, rfl⟩

/-- The terminator search in a byte string of the form
`hdr ++ "\r\n\r\n" ++ body` finds the boundary exactly at the junction,
provided `hdr` neither contains the terminator nor ends with `"\r\n"`
(the only way an occurrence could straddle the junction). -/
theorem breakAt_junction : ∀ (hdr body : Str), ¬ CRLF2 <:+: hdr → ¬ CRLF <:+ hdr →
    breakAt CRLF2 (hdr ++ (CRLF2 ++ body)) = some (hdr, body) := by
  intro hdr
  induction hdr with
  | nil =>
    intro body h1 h2
    show breakAt CRLF2 ('\r' :: '\n' :: '\r' :: '\n' :: body) = some ([], body)
    simp [breakAt, CRLF2, List.isPrefixOf]
  | cons c t ih =>
    intro body h1 h2
    have h1t : ¬ CRLF2 <:+: t := fun hi => h1 (List.infix_cons hi)
    have h2t : ¬ CRLF <:+ t := fun hs => h2 (suffix_cons c hs)
    show breakAt CRLF2 (c :: (t ++ (CRLF2 ++ body))) = some (c :: t, body)
    rw [breakAt]
    have hpf : CRLF2.isPrefixOf (c :: (t ++ (CRLF2 ++ body))) = false := by
      apply Bool.eq_false_iff.2
      intro htrue
      have hp := List.isPrefixOf_iff_prefix.1 htrue
      obtain ⟨rest, hrest⟩ := hp
      rcases t with _ | ⟨c2, t2⟩
      · simp only [List.nil_append, CRLF2, List.cons_append, List.cons.injEq] at hrest
        exact absurd hrest.2.1 (by decide)
      · rcases t2 with _ | ⟨c3, t3⟩
        · simp only [CRLF2, List.cons_append, List.singleton_append, List.nil_append,
            List.cons.injEq] at hrest
          obtain ⟨hc, hc2, -⟩ := hrest
          exact h2 ⟨[], by simp [CRLF, ← hc, ← hc2]⟩
        · rcases t3 with _ | ⟨c4, t4⟩
          · simp only [CRLF2, List.cons_append, List.singleton_append, List.nil_append,
              List.cons.injEq] at hrest
            exact absurd hrest.2.2.2.1 (by decide)
          · simp only [CRLF2, List.cons_append, List.nil_append, List.cons.injEq] at hrest
            obtain ⟨hc, hc2, hc3, hc4, -⟩ := hrest
            exact h1 ⟨[], t4, by simp [CRLF2, ← hc, ← hc2, ← hc3, ← hc4]⟩
    simp only [hpf, Bool.false_eq_true, if_false]
    rw [ih body h1t h2t]

theorem dictGet_map_ne (k v k' : Str) (hne : k' ≠ k) :
    ∀ d : Dict, dictGet? (d.map (fun kv => if kv.1 == k then (k, v) else kv)) k' =
      dictGet? d k' := by
  intro d
  induction d with
  | nil => rfl
  | cons kv0 d' ih =>
    by_cases h0 : kv0.1 = k
    · have hb : (kv0.1 == k) = true := beq_iff_eq.2 h0
      have hb1 : ((k : Str) == k') = false := beq_eq_false_iff_ne.2 (fun h => hne h.symm)
      have hb2 : (kv0.1 == k') = false := beq_eq_false_iff_ne.2 (fun h => hne (h ▸ h0))
      simp only [dictGet?, List.map_cons, hb, if_true, List.find?]
      rw [show ((k, v).1 == k') = false from hb1, hb2]
      exact ih
    · have hb : (kv0.1 == k) = false := beq_eq_false_iff_ne.2 h0
      simp only [dictGet?, List.map_cons, hb, Bool.false_eq_true, if_false, List.find?]
      cases hb2 : (kv0.1 == k') with
      | true => rfl
      | false => exact ih

theorem dictGet_map_self (k v : Str) :
    ∀ d : Dict, d.any (fun kv => kv.1 == k) = true →
      dictGet? (d.map (fun kv => if kv.1 == k then (k, v) else kv)) k = some v := by
  intro d
  induction d with
  | nil => intro h; cases h
  | cons kv0 d' ih =>
    intro hany
    by_cases h0 : kv0.1 = k
    · have hb : (kv0.1 == k) = true := beq_iff_eq.2 h0
      simp only [dictGet?, List.map_cons, hb, if_true, List.find?]
      rw [show ((k, v).1 == k) = true from beq_iff_eq.2 rfl]
      rfl
    · have hb : (kv0.1 == k) = false := beq_eq_false_iff_ne.2 h0
      have hany' : d'.any (fun kv => kv.1 == k) = true := by
        rcases List.any_eq_true.1 hany with ⟨kv, hkv, hkvb⟩
        rcases List.mem_cons.1 hkv with h | h
        · exact absurd (beq_iff_eq.1 (h ▸ hkvb)) h0
        · exact List.any_eq_true.2 ⟨kv, h, hkvb⟩
      simp only [dictGet?, List.map_cons, hb, Bool.false_eq_true, if_false, List.find?, hb]
      exact ih hany'

theorem dictGet_append_single (k v k' : Str) :
    ∀ d : Dict, dictGet? (d ++ [(k, v)]) k' =
      match dictGet? d k' with
      | some w => some w
      | none => if k' = k then some v else none := by
  intro d
  induction d with
  | nil =>
    by_cases h : k' = k
    · have hb : ((k : Str) == k') = true := beq_iff_eq.2 h.symm
      simp only [List.nil_append, dictGet?, List.find?]
      rw [show ((k, v).1 == k') = true from hb]
      simp [h]
    · have hb : ((k : Str) == k') = false := beq_eq_false_iff_ne.2 (fun hh => h hh.symm)
      simp only [List.nil_append, dictGet?, List.find?]
      rw [show ((k, v).1 == k') = false from hb]
      simp [h]
  | cons kv0 d' ih =>
    simp only [List.cons_append, dictGet?, List.find?]
    cases hb : (kv0.1 == k') with
    | true => rfl
    | false => exact ih

/-- Characterisation of a Python dict update as seen through lookup. -/
theorem dictGet_insert (d : Dict) (k v k' : Str) :
    dictGet? (dictInsert d k v) k' = if k' = k then some v else dictGet? d k' := by
  unfold dictInsert
  by_cases hany : d.any (fun kv => kv.1 == k) = true
  · rw [if_pos hany]
    by_cases h : k' = k
    · subst h
      rw [if_pos rfl, dictGet_map_self k' v d hany]
    · rw [if_neg h, dictGet_map_ne k v k' h d]
  · rw [if_neg hany]
    rw [dictGet_append_single k v k' d]
    by_cases h : k' = k
    · subst h
      have hall : ∀ x ∈ d, ¬ (x.1 == k') = true :=
        fun x hx hxb => hany (List.any_eq_true.2 ⟨x, hx, hxb⟩)
      have hnone : dictGet? d k' = none := by
        unfold dictGet?
        rw [List.find?_eq_none.2 hall]
        rfl
      simp [hnone]
    · rw [if_neg h]
      cases hd : dictGet? d k' <;> simp [h]

/-- The claim's reading of header collection: split each line once at the
first colon, trim key and value, and let the last occurrence of a name
win (later lines take precedence). -/
def lastHeaderValue (lines : List Str) (k : Str) : Option Str :=
  match lines with
  | [] => none
  | line :: rest =>
    match lastHeaderValue rest k with
    | some v => some v
    | none =>
      if strContains [':'] line ∧ pyStrip (pyPart [':'] line).1 = k then
        some (pyStrip (pyPart [':'] line).2.2)
      else none

/-- One step of the header-collection fold, named for the proofs. -/
def hstep (d : Dict) (line : Str) : Dict :=
  if strContains [':'] line then
    dictInsert d (pyStrip (pyPart [':'] line).1) (pyStrip (pyPart [':'] line).2.2)
  else d

theorem headerLinesToDict_eq (lines : List Str) :
    headerLinesToDict lines = lines.foldl hstep [] := rfl

theorem foldl_hstep_get (k : Str) : ∀ (lines : List Str) (d : Dict),
    dictGet? (lines.foldl hstep d) k =
      match lastHeaderValue lines k with
      | some v => some v
      | none => dictGet? d k := by
  intro lines
  induction lines with
  | nil => intro d; rfl
  | cons line rest ih =>
    intro d
    show dictGet? (rest.foldl hstep (hstep d line)) k = _
    rw [ih (hstep d line)]
    show _ = (match (match lastHeaderValue rest k with
      | some v => some v
      | none =>
        if strContains [':'] line ∧ pyStrip (pyPart [':'] line).1 = k then
          some (pyStrip (pyPart [':'] line).2.2)
        else none) with
      | some v => some v
      | none => dictGet? d k)
    cases lastHeaderValue rest k with
    | some v => rfl
    | none =>
      show dictGet? (hstep d line) k = _
      unfold hstep
      by_cases hc : strContains [':'] line
      · rw [if_pos hc, dictGet_insert]
        by_cases hk : pyStrip (pyPart [':'] line).1 = k
        · rw [if_pos (by rw [hk]), if_pos ⟨hc, hk⟩]
        · rw [if_neg (fun h => hk h.symm), if_neg (fun h => hk h.2)]
      · rw [if_neg hc, if_neg (fun h => hc h.1)]

/-- C6 counterexample: the header mapping of `parse_http_request` is
looked up case-sensitively, not case-insensitively.  A request carrying
`host: example.com` parses into a mapping whose exact-match lookup of
"Host" — the lookup `parse_target_from_request` actually performs —
fails, while the case-insensitive lookup the claim describes would
succeed; the request is consequently treated as having no resolvable
host. -/
theorem c6_counterexample :
    parse_http_request "GET / HTTP/1.1\r\nhost: example.com\r\n\r\n".toList =
      some (("GET".toList, "/".toList, "HTTP/1.1".toList),
        [("host".toList, "example.com".toList)], []) ∧
    dictGet? [("host".toList, "example.com".toList)] "Host".toList = none ∧
    (List.find? (fun kv => strLower kv.1 == strLower "Host".toList)
      [("host".toList, "example.com".toList)]).map (fun kv => kv.2) =
        some "example.com".toList ∧
    parse_target_from_request "/".toList [("host".toList, "example.com".toList)] =
      some ([], 0, []) := by
  refine ⟨by decide, by decide, by decide, by decide⟩

/-- C6 as amended: `parse_http_request` splits the input at the first
header/body boundary, splits each header line once on the first colon
with key and value trimmed, keeps the last occurrence of a duplicated
header name, and yields a mapping whose names are looked up
case-sensitively (exact match); a request line that does not consist of
exactly three space-separated tokens is a parse failure. -/
theorem c6_amended :
    (∀ hdr body r, ¬ CRLF2 <:+: hdr → ¬ CRLF <:+ hdr →
      parse_http_request (hdr ++ (CRLF2 ++ body)) = some r → r.2.2 = body) ∧
    (∀ lines k, dictGet? (headerLinesToDict lines) k = lastHeaderValue lines k) ∧
    (∀ req, (splitSep [' '] ((splitSep CRLF (pyPart CRLF2 req).1).headD [])).length ≠ 3 →
      parse_http_request req = none) := by
  refine ⟨?_, ?_, ?_⟩
  · intro hdr body r h1 h2 hpr
    have hpp : pyPart CRLF2 (hdr ++ (CRLF2 ++ body)) = (hdr, true, body) := by
      unfold pyPart
      rw [breakAt_junction hdr body h1 h2]
    simp only [parse_http_request] at hpr
    rw [hpp] at hpr
    rcases hxs : splitSep [' '] ((splitSep CRLF (hdr, true, body).1).headD [])
      with _ | ⟨a, _ | ⟨b, _ | ⟨c, _ | ⟨d, tl⟩⟩⟩⟩ <;> (rw [hxs] at hpr; cases hpr; try rfl)
  · intro lines k
    rw [headerLinesToDict_eq, foldl_hstep_get]
    cases lastHeaderValue lines k with
    | some v => rfl
    | none => rfl
  · intro req hlen
    simp only [parse_http_request]
    rcases hxs : splitSep [' '] ((splitSep CRLF (pyPart CRLF2 req).1).headD [])
      with _ | ⟨a, _ | ⟨b, _ | ⟨c, _ | ⟨d, tl⟩⟩⟩⟩ <;> try rfl
    exact absurd (by rw [hxs]; rfl) hlen

/-- Witness for C6 (amended): parsing a request whose `Host` header is
duplicated keeps the last occurrence, trims the values, and splits the
body at the first boundary. -/
theorem c6_amended_witness :
    (parse_http_request
        ("GET / HTTP/1.1\r\nHost: a\r\nHost:  b ".toList ++
          (CRLF2 ++ "BODY".toList))).map (fun r => r.2.2) = some "BODY".toList ∧
    dictGet? (headerLinesToDict ["Host: a".toList, "Host:  b ".toList]) "Host".toList =
      some "b".toList ∧
    parse_http_request "GET /\r\n\r\n".toList = none := by
  refine ⟨?_, ?_, ?_⟩
  · cases hpr : parse_http_request
        ("GET / HTTP/1.1\r\nHost: a\r\nHost:  b ".toList ++ (CRLF2 ++ "BODY".toList)) with
    | none =>
      exact absurd hpr (by decide)
    | some r =>
      have hb := c6_amended.1 "GET / HTTP/1.1\r\nHost: a\r\nHost:  b ".toList
        "BODY".toList r (by decide) (by decide) hpr
      simp [hb]
  · have h := c6_amended.2.1 ["Host: a".toList, "Host:  b ".toList] "Host".toList
    exact h.trans (by decide)
  · exact c6_amended.2.2 "GET /\r\n\r\n".toList (by decide)

theorem splitSep_of_none (sep s : Str) (h : breakAt sep s = none) : splitSep sep s = [s] := by
  unfold splitSep
  by_cases hsep : sep = []
  · rw [if_pos hsep]
  · rw [if_neg hsep]
    rcases hL : s.length with _ | k
    · rfl
    · rw [splitSepFuel, h]

theorem replA_no_inf (sep : Str) (c : Char) (hc : c ∈ sep) (hcA : c ≠ 'A') (n : Nat) :
    ¬ sep <:+: List.replicate n 'A' := by
  intro hi
  have hmem := hi.subset hc
  rw [List.mem_replicate] at hmem
  exact hcA hmem.2

theorem replA_no_suf (n : Nat) : ¬ CRLF <:+ List.replicate n 'A' := by
  intro hs
  have hmem := hs.subset (show '\r' ∈ CRLF by decide)
  rw [List.mem_replicate] at hmem
  exact absurd hmem.2 (by decide)

theorem recvA_step (rest : List Str) (m : Nat) :
    recvHeaders (List.replicate 4096 'A' :: rest) (List.replicate m 'A') =
      if 65536 < m + 4096 then some (List.replicate (m + 4096) 'A', rest)
      else recvHeaders rest (List.replicate (m + 4096) 'A') := by
  have hni : strContains CRLF2 (List.replicate m 'A') = false := by
    rw [Bool.eq_false_iff]
    intro htrue
    exact replA_no_inf CRLF2 '\r' (by decide) (by decide) m ((strContains_iff _ _).1 htrue)
  have hcne : ¬ (List.replicate 4096 'A' = ([] : Str)) := by
    intro h0
    have hl := congrArg List.length h0
    rw [List.length_replicate, List.length_nil] at hl
    omega
  rw [recvHeaders]
  rw [hni]
  simp only [Bool.false_eq_true, if_false]
  rw [if_neg hcne]
  rw [← List.replicate_add]
  simp only [List.length_replicate]

theorem recvA_chain : ∀ j : Nat, j ≤ 16 →
    recvHeaders (List.replicate 17 (List.replicate 4096 'A')) [] =
      recvHeaders (List.replicate (17 - j) (List.replicate 4096 'A'))
        (List.replicate (4096 * j) 'A') := by
  intro j
  induction j with
  | zero => intro _; rfl
  | succ i ih =>
    intro h
    rw [ih (Nat.le_of_succ_le h)]
    have h17 : 17 - i = (17 - (i + 1)) + 1 := by omega
    rw [h17, List.replicate_succ, recvA_step]
    rw [if_neg (by omega : ¬ 65536 < 4096 * i + 4096)]
    rw [show 4096 * i + 4096 = 4096 * (i + 1) from by ring]

theorem recvA_result :
    recvHeaders (List.replicate 17 (List.replicate 4096 'A')) [] =
      some (List.replicate 69632 'A', []) := by
  rw [recvA_chain 16 (by omega)]
  rw [show (17 - 16 : Nat) = 1 from rfl, show (4096 * 16 : Nat) = 65536 from rfl,
    List.replicate_one]
  rw [recvA_step [] 65536]
  rw [if_pos (by omega : (65536 : Nat) < 65536 + 4096)]

/-- C3 counterexample: seventeen 4096-byte chunks with no terminator
(69632 > 64 KiB of header bytes).  The receive loop breaks at the cap
and the handler processes the truncated buffer as a request: the
one-token request line fails to parse, and a 400 response is sent to
the client — the request is not abandoned without a response. -/
theorem pyPart_none (sep s : Str) (h : breakAt sep s = none) :
    pyPart sep s = (s, false, []) := by
  unfold pyPart
  rw [h]

theorem pyPart_found (sep s a b : Str) (h : breakAt sep s = some (a, b)) :
    pyPart sep s = (a, true, b) := by
  unfold pyPart
  rw [h]

theorem readBody_nil (cl : Int) (body : Str) : readBody cl [] body = body := rfl

theorem recv_http_eq (chunks : List Str) (buf : Str) (rest : List Str)
    (h : recvHeaders chunks [] = some (buf, rest)) :
    recv_http_request chunks =
      (pyPart CRLF2 buf).1 ++ CRLF2 ++
        readBody (contentLengthOf (splitSep CRLF (pyPart CRLF2 buf).1).tail) rest
          (pyPart CRLF2 buf).2.2 := by
  unfold recv_http_request
  rw [h]

theorem parse_http_eq (req hb bd : Str) (f : Bool)
    (h : pyPart CRLF2 req = (hb, f, bd)) :
    parse_http_request req =
      match splitSep [' '] ((splitSep CRLF hb).headD []) with
      | [m, u, v] => some ((m, u, v), headerLinesToDict (splitSep CRLF hb).tail, bd)
      | _ => none := by
  simp only [parse_http_request, h]

theorem handle_of_parse_none (domains chunks : List Str) (upF : Upstream) (upT : TunUp)
    (ip : Str) (e : Nat) (r : Str) (hr : recv_http_request chunks = r) (hne : r ≠ [])
    (hp : parse_http_request r = none) :
    handle domains chunks upF upT ip e = [.sendClient badRequestResponse] := by
  simp only [handle, hr]
  rw [if_neg hne, hp]

theorem c3buf_no_term : ¬ CRLF2 <:+: List.replicate 69632 'A' :=
  replA_no_inf CRLF2 '\r' (by decide) (by decide) 69632

theorem c3buf_pyPart :
    pyPart CRLF2 (List.replicate 69632 'A') = (List.replicate 69632 'A', false, []) :=
  pyPart_none _ _ ((breakAt_eq_none_iff _ _).2 c3buf_no_term)

theorem c3buf_lines :
    splitSep CRLF (List.replicate 69632 'A') = [List.replicate 69632 'A'] :=
  splitSep_of_none _ _
    ((breakAt_eq_none_iff _ _).2 (replA_no_inf CRLF '\r' (by decide) (by decide) 69632))

theorem c3buf_spaceLines :
    splitSep [' '] (List.replicate 69632 'A') = [List.replicate 69632 'A'] :=
  splitSep_of_none _ _
    ((breakAt_eq_none_iff _ _).2 (replA_no_inf [' '] ' ' (by decide) (by decide) 69632))

theorem c3_recv :
    recv_http_request (List.replicate 17 (List.replicate 4096 'A')) =
      List.replicate 69632 'A' ++ CRLF2 := by
  have h1 : (pyPart CRLF2 (List.replicate 69632 'A')).1 = List.replicate 69632 'A' := by
    rw [c3buf_pyPart]
  have h2 : (pyPart CRLF2 (List.replicate 69632 'A')).2.2 = [] := by
    rw [c3buf_pyPart]
  rw [recv_http_eq _ _ _ recvA_result, h1, h2, readBody_nil, List.append_nil]

theorem c3_pyPart2 :
    pyPart CRLF2 (List.replicate 69632 'A' ++ CRLF2) =
      (List.replicate 69632 'A', true, []) := by
  have hj := breakAt_junction (List.replicate 69632 'A') [] c3buf_no_term (replA_no_suf 69632)
  rw [List.append_nil] at hj
  exact pyPart_found _ _ _ _ hj

theorem c3_parse : parse_http_request (List.replicate 69632 'A' ++ CRLF2) = none := by
  rw [parse_http_eq _ _ _ _ c3_pyPart2, c3buf_lines, List.headD_cons, c3buf_spaceLines]

theorem c3buf_ne : List.replicate 69632 'A' ++ CRLF2 ≠ ([] : Str) := by
  intro hh
  have hl := congrArg List.length hh
  simp only [List.length_append, List.length_replicate, List.length_nil] at hl
  omega

/-- C3 counterexample: seventeen 4096-byte chunks with no terminator
(69632 > 64 KiB of header bytes).  The receive loop breaks at the cap
and the handler processes the truncated buffer as a request: the
one-token request line fails to parse, and a 400 response is sent to
the client — the request is not abandoned without a response. -/
theorem c3_counterexample :
    handle [] (List.replicate 17 (List.replicate 4096 'A')) .connectFail .connectFail
        "ip".toList 0 = [.sendClient badRequestResponse] ∧
    recv_http_request (List.replicate 17 (List.replicate 4096 'A')) ≠ [] := by
  constructor
  · exact handle_of_parse_none [] _ .connectFail .connectFail "ip".toList 0 _
      c3_recv c3buf_ne c3_parse
  · rw [c3_recv]
    exact c3buf_ne

/-- C3 as amended: only when the client socket yields zero bytes (EOF)
before the terminator — and before the 64 KiB cap — is the request
abandoned silently, with no response and no metrics row; when the cap is
exceeded without a terminator the handler instead processes the
truncated buffer (and may respond, as the counterexample shows). -/
theorem c3_amended (domains chunks : List Str) (upF : Upstream) (upT : TunUp)
    (ip : Str) (e : Nat) (h : recvHeaders chunks [] = none) :
    recv_http_request chunks = [] ∧ handle domains chunks upF upT ip e = [] := by
  have hr : recv_http_request chunks = [] := by
    unfold recv_http_request
    rw [h]
  refine ⟨hr, ?_⟩
  simp [handle, hr]

/-- Witness for C3 (amended): a client that closes after sending only
`GET` (no terminator) is abandoned with an empty trace. -/
theorem c3_amended_witness :
    recv_http_request ["GET".toList] = [] ∧
    handle [] ["GET".toList] .connectFail .connectFail "ip".toList 0 = [] :=
  c3_amended [] ["GET".toList] .connectFail .connectFail "ip".toList 0 (by decide)

theorem breakAt_single (c : Char) : ∀ s : Str,
    breakAt [c] s =
      if c ∈ s then some (s.takeWhile (fun a => a != c), (s.dropWhile (fun a => a != c)).tail)
      else none := by
  intro s
  induction s with
  | nil => simp [breakAt]
  | cons d rest ih =>
    by_cases hcd : c = d
    · subst hcd
      have hpf : ([c] : Str).isPrefixOf (c :: rest) = true := by
        simp [List.isPrefixOf]
      rw [breakAt, hpf]
      simp
    · have hpf : ([c] : Str).isPrefixOf (d :: rest) = false := by
        simp [List.isPrefixOf]
        exact fun h => absurd h.symm (fun hh => hcd hh.symm)
      rw [breakAt, hpf]
      simp only [Bool.false_eq_true, if_false]
      rw [ih]
      by_cases hm : c ∈ rest
      · rw [if_pos hm, if_pos (List.mem_cons_of_mem d hm)]
        have hd : (d != c) = true := by
          simp [bne_iff_ne]
          exact fun hh => hcd hh.symm
        simp [List.takeWhile_cons, List.dropWhile_cons, hd]
      · rw [if_neg hm, if_neg (by
          intro hmem
          rcases List.mem_cons.1 hmem with h | h
          · exact hcd h
          · exact hm h)]

theorem pyPart_single_proj (c : Char) (s : Str) :
    (pyPart [c] s).1 = s.takeWhile (fun a => a != c) ∧
    (pyPart [c] s).2.2 = (s.dropWhile (fun a => a != c)).tail := by
  unfold pyPart
  rw [breakAt_single]
  by_cases h : c ∈ s
  · rw [if_pos h]
    exact ⟨rfl, rfl⟩
  · rw [if_neg h]
    constructor
    · show s = s.takeWhile (fun a => a != c)
      symm
      rw [List.takeWhile_eq_self_iff]
      intro a ha
      simp [bne_iff_ne]
      exact fun hh => h (hh ▸ ha)
    · show ([] : Str) = (s.dropWhile (fun a => a != c)).tail
      have hd : s.dropWhile (fun a => a != c) = [] := by
        rw [List.dropWhile_eq_nil_iff]
        intro a ha
        simp [bne_iff_ne]
        exact fun hh => h (hh ▸ ha)
      rw [hd]
      rfl

theorem strContains_single (c : Char) (s : Str) :
    strContains [c] s = decide (c ∈ s) := by
  unfold strContains
  rw [breakAt_single]
  by_cases h : c ∈ s
  · simp [h]
  · simp [h]

theorem takeWhile_congr_on (p q : Char → Bool) :
    ∀ s : Str, (∀ c ∈ s, p c = q c) → s.takeWhile p = s.takeWhile q := by
  intro s
  induction s with
  | nil => intro _; rfl
  | cons d rest ih =>
    intro h
    rw [List.takeWhile_cons, List.takeWhile_cons, h d (List.mem_cons_self d rest)]
    by_cases hq : q d = true
    · rw [hq]
      simp only [if_true]
      rw [ih (fun c hc => h c (List.mem_cons_of_mem d hc))]
    · rw [Bool.eq_false_iff.2 hq]
      simp

theorem takeWhile_stop (p : Char → Bool) :
    ∀ (a : Str) (c : Char) (b : Str), (∀ x ∈ a, p x = true) → p c = false →
      ((a ++ c :: b).takeWhile p = a ∧ (a ++ c :: b).dropWhile p = c :: b) := by
  intro a
  induction a with
  | nil =>
    intro c b _ hc
    constructor
    · rw [List.nil_append, List.takeWhile_cons, hc]
      rfl
    · rw [List.nil_append, List.dropWhile_cons, hc]
      rfl
  | cons x a' ih =>
    intro c b ha hc
    have hx : p x = true := ha x (List.mem_cons_self x a')
    have ih2 := ih c b (fun y hy => ha y (List.mem_cons_of_mem x hy)) hc
    constructor
    · rw [List.cons_append, List.takeWhile_cons, hx]
      simp only [if_true]
      rw [ih2.1]
    · rw [List.cons_append, List.dropWhile_cons, hx]
      simp only [if_true]
      rw [ih2.2]

theorem rpartAfter_not_mem (c : Char) (s : Str) (h : c ∉ s) : rpartAfter c s = s := by
  unfold rpartAfter
  have : s.reverse.takeWhile (fun a => a != c) = s.reverse := by
    rw [List.takeWhile_eq_self_iff]
    intro a ha
    simp [bne_iff_ne]
    exact fun hh => h (hh ▸ (List.mem_reverse.1 ha))
  rw [this, List.reverse_reverse]

theorem splitHostPort_plain (netloc : Str) (hAt : '@' ∉ netloc) (hBr : '[' ∉ netloc) :
    splitHostPort netloc = ((pyPart [':'] netloc).1, (pyPart [':'] netloc).2.2) := by
  unfold splitHostPort
  rw [rpartAfter_not_mem '@' netloc hAt]
  rw [if_neg (by
    rw [strContains_single]
    simp [hBr])]

theorem strLower_append (a b : Str) : strLower (a ++ b) = strLower a ++ strLower b :=
  List.map_append _ _ _

theorem https_lower : strLower httpsPre = httpsPre := by decide

theorem http_lower : strLower httpPre = httpPre := by decide

theorem isPre_self (pre x : Str) : pre.isPrefixOf (pre ++ x) = true :=
  List.isPrefixOf_iff_prefix.2 (List.prefix_append pre x)

theorem https_not_of_http (x : Str) : httpsPre.isPrefixOf (httpPre ++ x) = false := by
  apply Bool.eq_false_iff.2
  intro h
  obtain ⟨t, ht⟩ := List.isPrefixOf_iff_prefix.1 h
  rw [show (httpsPre : Str) = ['h', 't', 't', 'p', 's', ':', '/', '/'] from rfl,
    show (httpPre : Str) = ['h', 't', 't', 'p', ':', '/', '/'] from rfl] at ht
  simp only [List.cons_append, List.nil_append, List.cons.injEq] at ht
  exact absurd ht.2.2.2.2.1 (by decide)

theorem urlsplitHttp_eq (ss : Bool) (rest : Str) (hH : '#' ∉ rest) :
    urlsplitHttp ((if ss then httpsPre else httpPre) ++ rest) =
      { https := ss,
        netloc := rest.takeWhile (fun c => !(c == '/' || c == '?')),
        path := (rest.drop (rest.takeWhile (fun c => !(c == '/' || c == '?'))).length).takeWhile
          (fun a => a != '?'),
        query := ((rest.drop (rest.takeWhile
          (fun c => !(c == '/' || c == '?'))).length).dropWhile (fun a => a != '?')).tail } := by
  have hdetect : httpsPre.isPrefixOf (strLower ((if ss then httpsPre else httpPre) ++ rest)) = ss := by
    cases ss
    · show httpsPre.isPrefixOf (strLower (httpPre ++ rest)) = false
      rw [strLower_append, http_lower]
      exact https_not_of_http (strLower rest)
    · show httpsPre.isPrefixOf (strLower (httpsPre ++ rest)) = true
      rw [strLower_append, https_lower]
      exact isPre_self _ _
  have hdrop : ((if ss then httpsPre else httpPre) ++ rest).drop (if ss then 8 else 7) = rest := by
    cases ss
    · show (httpPre ++ rest).drop 7 = rest
      rw [show (7 : Nat) = httpPre.length from rfl, List.drop_left]
    · show (httpsPre ++ rest).drop 8 = rest
      rw [show (8 : Nat) = httpsPre.length from rfl, List.drop_left]
  have hnet : rest.takeWhile (fun c => !(c == '/' || c == '?' || c == '#')) =
      rest.takeWhile (fun c => !(c == '/' || c == '?')) := by
    apply takeWhile_congr_on
    intro c hc
    have hns : (c == '#') = false := beq_eq_false_iff_ne.2 (fun hh => hH (hh ▸ hc))
    simp [hns]
  have hfr : pyPart ['#'] (rest.drop (rest.takeWhile
      (fun c => !(c == '/' || c == '?'))).length) =
      (rest.drop (rest.takeWhile (fun c => !(c == '/' || c == '?'))).length, false, []) := by
    unfold pyPart
    rw [breakAt_single]
    rw [if_neg (fun hm => hH (List.drop_subset _ _ hm))]
  have hq := pyPart_single_proj '?' (rest.drop (rest.takeWhile
    (fun c => !(c == '/' || c == '?'))).length)
  simp only [urlsplitHttp, hdetect, hdrop, hnet, hfr]
  rw [hq.1, hq.2]

/-- Claim-side reading of C7: the authority of an absolute URI target is
what stands between the scheme marker and the first `/` or `?`. -/
def specAuthority (rest : Str) : Str := rest.takeWhile (fun c => !(c == '/' || c == '?'))

/-- Claim-side reading of C7: the remainder of the URI after its
authority. -/
def specTail (rest : Str) : Str := rest.drop (specAuthority rest).length

/-- Claim-side reading of C7: the URI's path defaulting to "/", plus
`?query` when the query is non-empty. -/
def specPathQuery (rest : Str) : Str :=
  let path0 := if (specTail rest).takeWhile (fun a => a != '?') = [] then ['/']
    else (specTail rest).takeWhile (fun a => a != '?')
  let q := ((specTail rest).dropWhile (fun a => a != '?')).tail
  if q = [] then path0 else path0 ++ '?' :: q

theorem parse_target_abs (ss : Bool) (rest : Str) (headers : Dict)
    (hH : '#' ∉ rest) (hAt : '@' ∉ rest) (hBr : '[' ∉ rest) :
    parse_target_from_request ((if ss then httpsPre else httpPre) ++ rest) headers =
      (match urlPort? (((specAuthority rest).dropWhile (fun a => a != ':')).tail) with
       | none => none
       | some portOpt =>
         some (strLower ((specAuthority rest).takeWhile (fun a => a != ':')),
           (match portOpt with
            | some p => if p = 0 then (if ss then (443 : Int) else 80) else p
            | none => (if ss then (443 : Int) else 80)),
           specPathQuery rest)) := by
  have hguard : (httpPre.isPrefixOf ((if ss then httpsPre else httpPre) ++ rest) ||
      httpsPre.isPrefixOf ((if ss then httpsPre else httpPre) ++ rest)) = true := by
    cases ss
    · show (httpPre.isPrefixOf (httpPre ++ rest) || _) = true
      rw [isPre_self, Bool.true_or]
    · show (_ || httpsPre.isPrefixOf (httpsPre ++ rest)) = true
      rw [isPre_self, Bool.or_true]
  have hsub : ∀ c, c ∈ specAuthority rest → c ∈ rest := by
    intro c hc
    exact (List.takeWhile_sublist _).subset hc
  have hsplit : splitHostPort (specAuthority rest) =
      ((pyPart [':'] (specAuthority rest)).1, (pyPart [':'] (specAuthority rest)).2.2) :=
    splitHostPort_plain _ (fun hm => hAt (hsub _ hm)) (fun hm => hBr (hsub _ hm))
  have hq := pyPart_single_proj ':' (specAuthority rest)
  simp only [specAuthority] at hsplit hq
  simp only [parse_target_from_request, hguard, if_true, urlsplitHttp_eq ss rest hH,
    specAuthority, specTail, specPathQuery]
  rw [hsplit, hq.1, hq.2]

/-- C7: `resolve_target` yields, for an absolute `http://`/`https://`
URI (with no fragment, userinfo or IPv6 bracket, and a valid port when
one is given), the URI's host lower-cased, its explicit port or else
443 for https and 80 for http, and its path (defaulting to "/") plus
query; for an origin-form target, the `Host` header's host with its
optional valid `:port` suffix (default 80) and the request path; and
the no-host failure value when neither yields a host. -/
theorem c7_resolve_target :
    (∀ (ss : Bool) (rest : Str) (headers : Dict),
      '#' ∉ rest → '@' ∉ rest → '[' ∉ rest → ':' ∉ specAuthority rest →
      parse_target_from_request ((if ss then httpsPre else httpPre) ++ rest) headers =
        some (strLower (specAuthority rest), (if ss then (443 : Int) else 80),
          specPathQuery rest)) ∧
    (∀ (ss : Bool) (rest : Str) (headers : Dict) (hostPart portStr : Str) (p : Int),
      '#' ∉ rest → '@' ∉ rest → '[' ∉ rest →
      specAuthority rest = hostPart ++ ':' :: portStr → ':' ∉ hostPart →
      pyInt? portStr = some p → 0 < p → p ≤ 65535 →
      parse_target_from_request ((if ss then httpsPre else httpPre) ++ rest) headers =
        some (strLower hostPart, p, specPathQuery rest)) ∧
    (∀ (url : Str) (headers : Dict) (hh : Str),
      httpPre.isPrefixOf url = false → httpsPre.isPrefixOf url = false →
      dictGet? headers "Host".toList = some hh → hh ≠ [] → ':' ∉ hh →
      parse_target_from_request url headers = some (hh, 80, if url = [] then ['/'] else url)) ∧
    (∀ (url : Str) (headers : Dict) (hostPart portStr : Str) (p : Int),
      httpPre.isPrefixOf url = false → httpsPre.isPrefixOf url = false →
      dictGet? headers "Host".toList = some (hostPart ++ ':' :: portStr) → ':' ∉ hostPart →
      pyInt? portStr = some p →
      parse_target_from_request url headers =
        some (hostPart, p, if url = [] then ['/'] else url)) ∧
    (∀ (url : Str) (headers : Dict),
      httpPre.isPrefixOf url = false → httpsPre.isPrefixOf url = false →
      (dictGet? headers "Host".toList).getD [] = [] →
      parse_target_from_request url headers = some ([], 0, [])) := by
  refine ⟨?_, ?_, ?_, ?_, ?_⟩
  · intro ss rest headers hH hAt hBr hnc
    rw [parse_target_abs ss rest headers hH hAt hBr]
    have hall : ∀ a ∈ specAuthority rest, (a != ':') = true := by
      intro a ha
      simp only [bne_iff_ne, ne_eq, decide_eq_true_eq]
      exact fun hh => hnc (hh ▸ ha)
    have hdw : (specAuthority rest).dropWhile (fun a => a != ':') = [] :=
      List.dropWhile_eq_nil_iff.2 hall
    have htw : (specAuthority rest).takeWhile (fun a => a != ':') = specAuthority rest :=
      List.takeWhile_eq_self_iff.2 hall
    rw [hdw, htw]
    rfl
  · intro ss rest headers hostPart portStr p hH hAt hBr heq hnc hpi hpos hle
    rw [parse_target_abs ss rest headers hH hAt hBr, heq]
    have hstop := takeWhile_stop (fun a => a != ':') hostPart ':' portStr
      (by
        intro x hx
        simp only [bne_iff_ne, ne_eq, decide_eq_true_eq]
        exact fun hh => hnc (hh ▸ hx))
      (by simp)
    rw [hstop.1, hstop.2, List.tail_cons]
    have hne : portStr ≠ [] := by
      intro h0
      rw [h0, show pyInt? [] = none from rfl] at hpi
      cases hpi
    have hup : urlPort? portStr = some (some p) := by
      unfold urlPort?
      rw [if_neg hne, hpi]
      show (if 0 ≤ p ∧ p ≤ 65535 then some (some p) else none) = some (some p)
      rw [if_pos ⟨le_of_lt hpos, hle⟩]
    rw [hup]
    show some (strLower hostPart,
      (if p = 0 then (if ss then (443 : Int) else 80) else p), specPathQuery rest) = _
    rw [if_neg (by omega : ¬ p = 0)]
  · intro url headers hh habs1 habs2 hget hne hnc
    have hget2 : dictGet? headers (['H', 'o', 's', 't'] : Str) = some hh := hget
    have hcs : strContains [':'] hh = false := by
      rw [strContains_single]
      simp [hnc]
    unfold parse_target_from_request
    simp [habs1, habs2, hget2, hne, hcs]
  · intro url headers hostPart portStr p habs1 habs2 hget hnc hpi
    have hget2 : dictGet? headers (['H', 'o', 's', 't'] : Str) =
      some (hostPart ++ ':' :: portStr) := hget
    have hne : hostPart ++ ':' :: portStr ≠ [] := by simp
    have hcs : strContains [':'] (hostPart ++ ':' :: portStr) = true := by
      rw [strContains_single]
      simp
    have hq := pyPart_single_proj ':' (hostPart ++ ':' :: portStr)
    have hstop := takeWhile_stop (fun a => a != ':') hostPart ':' portStr
      (by
        intro x hx
        simp only [bne_iff_ne, ne_eq, decide_eq_true_eq]
        exact fun hh => hnc (hh ▸ hx))
      (by simp)
    have h1 : (pyPart [':'] (hostPart ++ ':' :: portStr)).1 = hostPart := by
      rw [hq.1, hstop.1]
    have h2 : (pyPart [':'] (hostPart ++ ':' :: portStr)).2.2 = portStr := by
      rw [hq.2, hstop.2, List.tail_cons]
    unfold parse_target_from_request
    simp [habs1, habs2, hget2, hne, hcs, h1, h2, hpi]
  · intro url headers habs1 habs2 hget0
    have hget2 : (dictGet? headers (['H', 'o', 's', 't'] : Str)).getD [] = [] := hget0
    unfold parse_target_from_request
    simp [habs1, habs2, hget2]

/-- Witness for C7: one concrete instance of each of the five cases. -/
theorem c7_witness :
    parse_target_from_request "http://example.com/a?b=1".toList [] =
      some ("example.com".toList, 80, "/a?b=1".toList) ∧
    parse_target_from_request "https://example.com:8443/p".toList [] =
      some ("example.com".toList, 8443, "/p".toList) ∧
    parse_target_from_request "/x".toList [("Host".toList, "h".toList)] =
      some ("h".toList, 80, "/x".toList) ∧
    parse_target_from_request "/x".toList [("Host".toList, "h:90".toList)] =
      some ("h".toList, 90, "/x".toList) ∧
    parse_target_from_request "/x".toList [] = some ([], 0, []) := by
  refine ⟨?_, ?_, ?_, ?_, ?_⟩
  · have h := c7_resolve_target.1 false "example.com/a?b=1".toList []
      (by decide) (by decide) (by decide) (by decide)
    exact ((by decide : parse_target_from_request "http://example.com/a?b=1".toList [] =
      parse_target_from_request ((if false then httpsPre else httpPre) ++
        "example.com/a?b=1".toList) [])).trans (h.trans (by decide))
  · have h := c7_resolve_target.2.1 true "example.com:8443/p".toList []
      "example.com".toList "8443".toList 8443
      (by decide) (by decide) (by decide) (by decide) (by decide) (by decide)
      (by decide) (by decide)
    exact ((by decide : parse_target_from_request "https://example.com:8443/p".toList [] =
      parse_target_from_request ((if true then httpsPre else httpPre) ++
        "example.com:8443/p".toList) [])).trans (h.trans (by decide))
  · have h := c7_resolve_target.2.2.1 "/x".toList [("Host".toList, "h".toList)] "h".toList
      (by decide) (by decide) (by decide) (by decide) (by decide)
    exact h.trans (by decide)
  · have h := c7_resolve_target.2.2.2.1 "/x".toList [("Host".toList, "h:90".toList)]
      "h".toList "90".toList 90 (by decide) (by decide) (by decide) (by decide) (by decide)
    exact h.trans (by decide)
  · exact c7_resolve_target.2.2.2.2 "/x".toList [] (by decide) (by decide) (by decide)
